import Mathlib

/-!
Shallow embedding of `src/solutions/jaume.py` (`knapsack_with_boosts`):
a 0/1 knapsack CP model with weight and volume capacities plus pairwise
boost triplets, built for an external CP-SAT solver.

Python floats are modelled as rationals (`ℚ`), Python ints as `Int`.
The external solver (`cp_model.CpSolver`) is modelled by an abstract
outcome (status plus assignment) together with contract predicates:
`SolverSound` (a FEASIBLE/OPTIMAL outcome satisfies every constraint of
the model and reports the objective evaluated at its assignment) and
`SolverOptimal` (an OPTIMAL outcome additionally maximizes the
objective).  A raised Python `IndexError` is modelled by `Option.none`.
-/

/-- Value of a CP-SAT boolean variable as the integer 0 or 1. -/
def b2i (b : Bool) : Int := if b then 1 else 0

/-- Value of a CP-SAT boolean variable as the rational 0 or 1. -/
def b2q (b : Bool) : ℚ := if b then 1 else 0

/-- The input of `knapsack_with_boosts` (the `time_limit_s` parameter only
feeds the solver's time budget and plays no role in model construction). -/
structure KInput where
  weights : List Int
  volumes : List Int
  values : List ℚ
  boosts : List (Int × Int × ℚ)
  max_weight : Int
  max_volume : Int

/-- Python list indexing: `l[i]` on a list of length `n` is valid for
`-n ≤ i < n`; a negative index aliases `n + i`; otherwise `IndexError`. -/
def resolveIdx (n : Nat) (i : Int) : Option Nat :=
  if 0 ≤ i ∧ i < (n : Int) then some i.toNat
  else if -(n : Int) ≤ i ∧ i < 0 then some ((n : Int) + i).toNat
  else none

/-- The loop over `boosts` (lines 34-41): each triplet's endpoints are used
to index `x` (length `n`), raising `IndexError` on an out-of-range index.
Returns the resolved endpoint pairs, one per boost, in order. -/
def resolveLinks (n : Nat) : List (Int × Int × ℚ) → Option (List (Nat × Nat))
  | [] => some []
  | (a, b, _) :: rest =>
    match resolveIdx n a, resolveIdx n b, resolveLinks n rest with
    | some ra, some rb, some rs => some ((ra, rb) :: rs)
    | _, _, _ => none

/-- The comprehension `f l[i] for i in range(n)`: the first `n` entries of
`l`, raising `IndexError` when `l` is shorter than `n`. -/
def takeExact {α : Type} (l : List α) (n : Nat) : Option (List α) :=
  if n ≤ l.length then some (l.take n) else none

/-- The constraint model built by `knapsack_with_boosts` before solving:
`n` boolean item variables, one resolved endpoint pair per boost for the
conjunction variables, the two capacity constraint coefficient rows, and
the objective coefficients (base values and per-boost extras). -/
structure CpKModel where
  n : Nat
  links : List (Nat × Nat)
  wCoeffs : List Int
  vCoeffs : List Int
  maxW : Int
  maxV : Int
  baseCoeffs : List ℚ
  extraCoeffs : List ℚ

/-- Model construction (lines 26-57 of the source): create `x[0..n)`,
resolve every boost's endpoints to link its conjunction variable, gather
the capacity coefficients `weights[i]`, `volumes[i]` for `i < n`, and
record the objective coefficients: `values[i]` on `x[i]` and
`values[a] * (boost - 1)` on each conjunction variable. -/
def buildModel (inp : KInput) : Option CpKModel :=
  match resolveLinks inp.values.length inp.boosts with
  | none => none
  | some links =>
    match takeExact inp.weights inp.values.length, takeExact inp.volumes inp.values.length with
    | some w, some v =>
      some { n := inp.values.length, links := links, wCoeffs := w, vCoeffs := v,
             maxW := inp.max_weight, maxV := inp.max_volume,
             baseCoeffs := inp.values,
             extraCoeffs := (links.zip inp.boosts).map
               (fun p => inp.values.getD p.1.1 0 * (p.2.2.2 - 1)) }
    | _, _ => none

/-- The linear expression `Σ c_i * var_i` over 0/1 variables, as built by
`model.Add(sum(...))` and `model.Maximize(sum(obj_terms))`. -/
def wsum {α : Type} [Semiring α] (toVal : Bool → α) (cs : List α) (xs : List Bool) : α :=
  (List.zipWith (fun c x => c * toVal x) cs xs).sum

/-- The three AND-linking constraints added for one conjunction variable
(lines 37-40): `z ≤ x_a`, `z ≤ x_b`, `z ≥ x_a + x_b - 1`. -/
def linkConstraints (xa xb zk : Bool) : Prop :=
  b2i zk ≤ b2i xa ∧ b2i zk ≤ b2i xb ∧ b2i xa + b2i xb - 1 ≤ b2i zk

instance (xa xb zk : Bool) : Decidable (linkConstraints xa xb zk) :=
  inferInstanceAs (Decidable (_ ∧ _ ∧ _))

/-- An assignment of the item variables and conjunction variables satisfies
every constraint of the model: the per-boost linking constraints and the
two capacity constraints. -/
def Feasible (M : CpKModel) (xs zs : List Bool) : Prop :=
  xs.length = M.n ∧ zs.length = M.links.length ∧
  (∀ p ∈ M.links.zip zs, linkConstraints (xs.getD p.1.1 false) (xs.getD p.1.2 false) p.2) ∧
  wsum b2i M.wCoeffs xs ≤ M.maxW ∧ wsum b2i M.vCoeffs xs ≤ M.maxV

instance (M : CpKModel) (xs zs : List Bool) : Decidable (Feasible M xs zs) :=
  inferInstanceAs (Decidable (_ ∧ _ ∧ _ ∧ _ ∧ _))

/-- The objective expression of the model (line 57): base value terms plus
boost extras. -/
def evalObj (M : CpKModel) (xs zs : List Bool) : ℚ :=
  wsum b2q M.baseCoeffs xs + wsum b2q M.extraCoeffs zs

/-- Line 67: `selected = [i for i in range(n) if solver.Value(x[i])]`. -/
def selectedOf (n : Nat) (xs : List Bool) : List Nat :=
  (List.range n).filter (fun i => xs.getD i false)

/-- Terminal statuses of the external CP-SAT solver. -/
inductive CpStatus
  | OPTIMAL | FEASIBLE | INFEASIBLE | MODEL_INVALID | UNKNOWN
deriving DecidableEq

/-- What the external solver hands back: a status and the assignment of
the item and conjunction variables read by `solver.Value`. -/
structure CpOutcome where
  status : CpStatus
  xs : List Bool
  zs : List Bool

/-- Result extraction (lines 64-75): on a status other than OPTIMAL or
FEASIBLE return `(None, None)`; otherwise the selected indices in
ascending order and `solver.ObjectiveValue()`, i.e. the model objective
evaluated at the returned assignment. -/
def extractResult (M : CpKModel) (o : CpOutcome) : Option (List Nat) × Option ℚ :=
  if o.status = CpStatus.OPTIMAL ∨ o.status = CpStatus.FEASIBLE then
    (some (selectedOf M.n o.xs), some (evalObj M o.xs o.zs))
  else (none, none)

/-- The whole of `knapsack_with_boosts`, parametrized by the external
solver's outcome; `none` models a raised `IndexError`. -/
def knapsack_with_boosts (inp : KInput) (o : CpOutcome) :
    Option (Option (List Nat) × Option ℚ) :=
  (buildModel inp).map (fun M => extractResult M o)

/-- Solver contract (spec section 6): when the status is OPTIMAL or
FEASIBLE the returned assignment satisfies every constraint of the model
handed to the solver. -/
def SolverSound (M : CpKModel) (o : CpOutcome) : Prop :=
  (o.status = CpStatus.OPTIMAL ∨ o.status = CpStatus.FEASIBLE) →
    Feasible M o.xs o.zs

/-- Solver contract for an OPTIMAL status: the returned assignment is
feasible and maximizes the objective over all feasible assignments. -/
def SolverOptimal (M : CpKModel) (o : CpOutcome) : Prop :=
  o.status = CpStatus.OPTIMAL →
    Feasible M o.xs o.zs ∧
    ∀ xs zs, Feasible M xs zs → evalObj M xs zs ≤ evalObj M o.xs o.zs

/-! ### Basic lemmas about the linear expressions -/

theorem wsum_nil {α : Type} [Semiring α] (toVal : Bool → α) (xs : List Bool) :
    wsum toVal [] xs = 0 := rfl

theorem wsum_cons {α : Type} [Semiring α] (toVal : Bool → α) (c : α) (cs : List α)
    (x : Bool) (xs : List Bool) :
    wsum toVal (c :: cs) (x :: xs) = c * toVal x + wsum toVal cs xs := by
  simp [wsum]

theorem selectedOf_zero (xs : List Bool) : selectedOf 0 xs = [] := rfl

theorem selectedOf_cons (n : Nat) (x : Bool) (xs : List Bool) :
    selectedOf (n + 1) (x :: xs) =
      (if x then [0] else []) ++ (selectedOf n xs).map Nat.succ := by
  unfold selectedOf
  rw [List.range_succ_eq_map, List.filter_cons, List.filter_map]
  have hc : ((fun i => (x :: xs).getD i false) ∘ Nat.succ) = fun i => xs.getD i false := by
    funext i
    simp [Function.comp]
  rw [hc]
  by_cases hx : x <;> simp [hx]

theorem mem_selectedOf (n : Nat) (xs : List Bool) (i : Nat) :
    i ∈ selectedOf n xs ↔ i < n ∧ xs.getD i false = true := by
  unfold selectedOf
  simp [List.mem_filter, List.mem_range]

/-- The value of the linear expression `Σ c_i x_i` at a 0/1 assignment is
the sum of the coefficients of the selected indices. -/
theorem wsum_eq_sum_selected {α : Type} [Semiring α] (toVal : Bool → α)
    (h0 : toVal false = 0) (h1 : toVal true = 1) :
    ∀ (cs : List α) (xs : List Bool), cs.length = xs.length →
      wsum toVal cs xs = ((selectedOf xs.length xs).map (fun i => cs.getD i 0)).sum := by
  intro cs
  induction cs with
  | nil =>
    intro xs hlen
    cases xs with
    | nil => simp [wsum_nil, selectedOf_zero]
    | cons x xs => simp at hlen
  | cons c cs ih =>
    intro xs hlen
    cases xs with
    | nil => simp at hlen
    | cons x xs =>
      have hlen' : cs.length = xs.length := by simpa using hlen
      rw [wsum_cons, List.length_cons, selectedOf_cons, List.map_append, List.sum_append,
        List.map_map, ih xs hlen']
      have hmap : ((selectedOf xs.length xs).map ((fun i => (c :: cs).getD i 0) ∘ Nat.succ))
          = (selectedOf xs.length xs).map (fun i => cs.getD i 0) := by
        apply List.map_congr_left
        intro i _
        simp [Function.comp]
      rw [hmap]
      by_cases hx : x <;> simp [hx, h0, h1]

theorem wsum_false {α : Type} [Semiring α] (toVal : Bool → α) (h0 : toVal false = 0) :
    ∀ (cs : List α) (m : Nat), wsum toVal cs (List.replicate m false) = 0 := by
  intro cs
  induction cs with
  | nil => intro m; exact wsum_nil toVal _
  | cons c cs ih =>
    intro m
    cases m with
    | zero => simp [wsum]
    | succ m => rw [List.replicate_succ, wsum_cons, ih m, h0]; simp

/-! ### Lemmas about index resolution and model construction -/

theorem resolveIdx_lt (n : Nat) (i : Int) (r : Nat) (h : resolveIdx n i = some r) : r < n := by
  unfold resolveIdx at h
  split at h
  · rename_i hc
    cases h
    omega
  · split at h
    · rename_i hc
      cases h
      omega
    · exact absurd h (by simp)

theorem resolveIdx_of_nonneg (n : Nat) (i : Int) (h0 : 0 ≤ i) (hn : i < (n : Int)) :
    resolveIdx n i = some i.toNat := by
  unfold resolveIdx
  rw [if_pos ⟨h0, hn⟩]

theorem resolveIdx_none_iff (n : Nat) (i : Int) :
    resolveIdx n i = none ↔ i < -(n : Int) ∨ (n : Int) ≤ i := by
  unfold resolveIdx
  split
  · rename_i hc
    simp only [reduceCtorEq, false_iff]
    omega
  · split
    · rename_i hc
      simp only [reduceCtorEq, false_iff]
      omega
    · rename_i h1 h2
      simp only [true_iff]
      omega

theorem resolveLinks_length (n : Nat) :
    ∀ (bs : List (Int × Int × ℚ)) (ls : List (Nat × Nat)),
      resolveLinks n bs = some ls → ls.length = bs.length := by
  intro bs
  induction bs with
  | nil =>
    intro ls h
    simp only [resolveLinks] at h
    cases h
    rfl
  | cons t bs ih =>
    intro ls h
    obtain ⟨a, b, f⟩ := t
    simp only [resolveLinks] at h
    cases ha : resolveIdx n a <;> rw [ha] at h
    · exact absurd h (by simp)
    cases hb : resolveIdx n b <;> rw [hb] at h
    · exact absurd h (by simp)
    cases hr : resolveLinks n bs <;> rw [hr] at h
    · exact absurd h (by simp)
    cases h
    simpa using ih _ hr

theorem resolveLinks_bound (n : Nat) :
    ∀ (bs : List (Int × Int × ℚ)) (ls : List (Nat × Nat)),
      resolveLinks n bs = some ls → ∀ p ∈ ls, p.1 < n ∧ p.2 < n := by
  intro bs
  induction bs with
  | nil =>
    intro ls h
    simp only [resolveLinks] at h
    cases h
    intro p hp
    exact absurd hp (by simp)
  | cons t bs ih =>
    intro ls h
    obtain ⟨a, b, f⟩ := t
    simp only [resolveLinks] at h
    cases ha : resolveIdx n a <;> rw [ha] at h
    · exact absurd h (by simp)
    cases hb : resolveIdx n b <;> rw [hb] at h
    · exact absurd h (by simp)
    cases hr : resolveLinks n bs <;> rw [hr] at h
    · exact absurd h (by simp)
    cases h
    intro p hp
    rcases List.mem_cons.mp hp with hp | hp
    · subst hp
      exact ⟨resolveIdx_lt n a _ ha, resolveIdx_lt n b _ hb⟩
    · exact ih _ hr p hp

theorem resolveLinks_eq_none_iff (n : Nat) :
    ∀ (bs : List (Int × Int × ℚ)),
      resolveLinks n bs = none ↔
        ∃ t ∈ bs, resolveIdx n t.1 = none ∨ resolveIdx n t.2.1 = none := by
  intro bs
  induction bs with
  | nil => simp [resolveLinks]
  | cons t bs ih =>
    obtain ⟨a, b, f⟩ := t
    simp only [resolveLinks]
    cases ha : resolveIdx n a
    · simp [ha]
    cases hb : resolveIdx n b
    · simp [ha, hb]
    cases hr : resolveLinks n bs
    · simp only [reduceCtorEq, true_iff]
      rcases ih.mp hr with ⟨t, ht, hcase⟩
      exact ⟨t, List.mem_cons_of_mem _ ht, hcase⟩
    · simp only [reduceCtorEq, false_iff]
      intro hcon
      rcases hcon with ⟨t, ht, hcase⟩
      rcases List.mem_cons.mp ht with ht | ht
      · subst ht
        simp only [ha, hb] at hcase
        rcases hcase with h | h <;> exact absurd h (by simp)
      · exact absurd (ih.mpr ⟨t, ht, hcase⟩) (by simp [hr])

/-- Unpacking of a successful model construction into its components. -/
theorem buildModel_inv (inp : KInput) (M : CpKModel) (h : buildModel inp = some M) :
    M.n = inp.values.length ∧
    resolveLinks inp.values.length inp.boosts = some M.links ∧
    M.wCoeffs = inp.weights.take inp.values.length ∧
    inp.values.length ≤ inp.weights.length ∧
    M.vCoeffs = inp.volumes.take inp.values.length ∧
    inp.values.length ≤ inp.volumes.length ∧
    M.maxW = inp.max_weight ∧ M.maxV = inp.max_volume ∧
    M.baseCoeffs = inp.values ∧
    M.extraCoeffs = (M.links.zip inp.boosts).map
      (fun p => inp.values.getD p.1.1 0 * (p.2.2.2 - 1)) := by
  unfold buildModel at h
  cases hr : resolveLinks inp.values.length inp.boosts <;> rw [hr] at h
  · exact absurd h (by simp)
  rename_i links
  unfold takeExact at h
  by_cases hw : inp.values.length ≤ inp.weights.length
  · rw [if_pos hw] at h
    by_cases hv : inp.values.length ≤ inp.volumes.length
    · rw [if_pos hv] at h
      cases h
      exact ⟨rfl, rfl, rfl, hw, rfl, hv, rfl, rfl, rfl, rfl⟩
    · rw [if_neg hv] at h
      exact absurd h (by simp)
  · rw [if_neg hw] at h
    exact absurd h (by simp)

/-- A successful model construction happens exactly when every boost index
resolves and both coefficient lists are long enough. -/
theorem buildModel_eq_none_iff (inp : KInput) :
    buildModel inp = none ↔
      (∃ t ∈ inp.boosts, resolveIdx inp.values.length t.1 = none ∨
        resolveIdx inp.values.length t.2.1 = none) ∨
      inp.weights.length < inp.values.length ∨
      inp.volumes.length < inp.values.length := by
  unfold buildModel
  cases hr : resolveLinks inp.values.length inp.boosts
  · simp only [true_iff]
    exact Or.inl ((resolveLinks_eq_none_iff _ _).mp hr)
  · unfold takeExact
    by_cases hw : inp.values.length ≤ inp.weights.length
    · rw [if_pos hw]
      by_cases hv : inp.values.length ≤ inp.volumes.length
      · rw [if_pos hv]
        simp only [reduceCtorEq, false_iff]
        intro hcon
        rcases hcon with hcon | hcon | hcon
        · exact absurd hr (by rw [(resolveLinks_eq_none_iff _ _).mpr hcon]; simp)
        · omega
        · omega
      · rw [if_neg hv]
        simp only [true_iff]
        omega
    · rw [if_neg hw]
      simp only [true_iff]
      omega

/-! ### The linking constraints force the conjunction semantics -/

theorem linkConstraints_iff_and (xa xb zk : Bool) :
    linkConstraints xa xb zk ↔ zk = (xa && xb) := by
  cases xa <;> cases xb <;> cases zk <;> decide

/-- In any feasible assignment every conjunction variable equals the AND of
its two endpoint variables. -/
theorem feasible_z_eq (M : CpKModel) (xs zs : List Bool) (h : Feasible M xs zs) :
    ∀ p ∈ M.links.zip zs, p.2 = (xs.getD p.1.1 false && xs.getD p.1.2 false) := by
  intro p hp
  exact (linkConstraints_iff_and _ _ _).mp (h.2.2.1 p hp)

/-! ### Recomputing the reported total from the returned selection -/

/-- A boost triplet has both endpoints inside the returned selection. -/
def boostSelected (sel : List Nat) (t : Int × Int × ℚ) : Bool :=
  decide (0 ≤ t.1 ∧ t.1.toNat ∈ sel ∧ 0 ≤ t.2.1 ∧ t.2.1.toNat ∈ sel)

/-- Independent recomputation of the reported total from the returned
selection, following the spec: the sum of the base values over the
selected indices plus, over exactly the boost triplets with both
endpoints selected, the extra `value_a * (factor - 1)`. -/
def recomputeTotal (inp : KInput) (sel : List Nat) : ℚ :=
  (sel.map (fun i => inp.values.getD i 0)).sum +
  ((inp.boosts.filter (boostSelected sel)).map
     (fun t => inp.values.getD t.1.toNat 0 * (t.2.2 - 1))).sum

theorem getD_take {α : Type} (l : List α) (n i : Nat) (h : i < n) (d : α) :
    (l.take n).getD i d = l.getD i d := by
  rw [List.getD_eq_getElem?_getD, List.getD_eq_getElem?_getD, List.getElem?_take_of_lt h]

theorem resolveIdx_inv_nonneg (n : Nat) (a : Int) (ra : Nat)
    (ha : resolveIdx n a = some ra) (h0 : 0 ≤ a) : ra = a.toNat ∧ ra < n := by
  refine ⟨?_, resolveIdx_lt n a ra ha⟩
  unfold resolveIdx at ha
  split at ha
  · cases ha
    rfl
  · split at ha
    · rename_i hc
      omega
    · exact absurd ha (by simp)

/-- The boost part of the objective, evaluated at a feasible assignment,
equals the recomputed extra over the boosts with both endpoints in the
selection read from the assignment. -/
theorem extra_wsum (values : List ℚ) (n : Nat) (xs : List Bool) :
    ∀ (bs : List (Int × Int × ℚ)) (ls : List (Nat × Nat)) (zs : List Bool),
      resolveLinks n bs = some ls →
      zs.length = ls.length →
      (∀ p ∈ ls.zip zs, p.2 = (xs.getD p.1.1 false && xs.getD p.1.2 false)) →
      (∀ t ∈ bs, 0 ≤ t.1 ∧ 0 ≤ t.2.1) →
      wsum b2q ((ls.zip bs).map (fun p => values.getD p.1.1 0 * (p.2.2.2 - 1))) zs
        = ((bs.filter (boostSelected (selectedOf n xs))).map
            (fun t => values.getD t.1.toNat 0 * (t.2.2 - 1))).sum := by
  intro bs
  induction bs with
  | nil =>
    intro ls zs hres hlen hz hnn
    simp only [resolveLinks] at hres
    cases hres
    simp [wsum_nil]
  | cons t bs ih =>
    obtain ⟨a, b, f⟩ := t
    intro ls zs hres hlen hz hnn
    simp only [resolveLinks] at hres
    cases ha : resolveIdx n a <;> rw [ha] at hres
    · exact absurd hres (by simp)
    cases hb : resolveIdx n b <;> rw [hb] at hres
    · exact absurd hres (by simp)
    cases hrest : resolveLinks n bs <;> rw [hrest] at hres
    · exact absurd hres (by simp)
    rename_i ra rb ls'
    cases hres
    have hna : 0 ≤ a := (hnn (a, b, f) (List.mem_cons_self _ _)).1
    have hnb : 0 ≤ b := (hnn (a, b, f) (List.mem_cons_self _ _)).2
    obtain ⟨hraEq, hraLt⟩ := resolveIdx_inv_nonneg n a ra ha hna
    obtain ⟨hrbEq, hrbLt⟩ := resolveIdx_inv_nonneg n b rb hb hnb
    cases zs with
    | nil => simp at hlen
    | cons zk zs' =>
      have hzk : zk = (xs.getD ra false && xs.getD rb false) :=
        hz ((ra, rb), zk) (by rw [List.zip_cons_cons]; exact List.mem_cons_self _ _)
      have hcond : boostSelected (selectedOf n xs) (a, b, f)
          = (xs.getD ra false && xs.getD rb false) := by
        cases hxa : xs.getD ra false <;> cases hxb : xs.getD rb false <;>
          simp only [List.getD_eq_getElem?_getD] at hxa hxb <;>
          simp [boostSelected, mem_selectedOf, hna, hnb, ← hraEq, ← hrbEq,
            hraLt, hrbLt, hxa, hxb]
      have htail : ∀ p ∈ ls'.zip zs', p.2 = (xs.getD p.1.1 false && xs.getD p.1.2 false) := by
        intro p hp
        exact hz p (by rw [List.zip_cons_cons]; exact List.mem_cons_of_mem _ hp)
      have htailnn : ∀ t ∈ bs, 0 ≤ t.1 ∧ 0 ≤ t.2.1 := by
        intro t ht
        exact hnn t (List.mem_cons_of_mem _ ht)
      have hlen' : zs'.length = ls'.length := by simpa using hlen
      rw [List.zip_cons_cons, List.map_cons, wsum_cons, ih ls' zs' hrest hlen' htail htailnn,
        List.filter_cons]
      rw [hcond, hzk]
      cases hxa : xs.getD ra false <;> cases hxb : xs.getD rb false <;>
        simp [hxa, hxb, b2q, ← hraEq]

/-! ### Claim theorems -/

/-- C1: for every input and every returned non-absent result of
`knapsack_with_boosts`, the reported `total_value` equals the sum of
`value_i` over the selected indices plus the sum, over exactly those boost
triplets `(a, b, factor)` whose both endpoints lie in `selected_indices`,
of `value_a * (factor - 1)`: recomputing this from the returned selection
reproduces `total_value` exactly (rationals model the floats, so the
floating-point tolerance is exact equality). -/
theorem c1_total_value_recomputed (inp : KInput) (M : CpKModel) (o : CpOutcome)
    (sel : List Nat) (total : ℚ)
    (hM : buildModel inp = some M)
    (hsound : SolverSound M o)
    (hst : o.status = CpStatus.OPTIMAL ∨ o.status = CpStatus.FEASIBLE)
    (hres : extractResult M o = (some sel, some total))
    (hidx : ∀ t ∈ inp.boosts, 0 ≤ t.1 ∧ 0 ≤ t.2.1) :
    total = recomputeTotal inp sel := by
  obtain ⟨hn, hlinks, hw, hwlen, hv, hvlen, hmw, hmv, hbase, hextra⟩ := buildModel_inv inp M hM
  have hfeas := hsound hst
  unfold extractResult at hres
  rw [if_pos hst] at hres
  injection hres with hres1 hres2
  injection hres1 with hsel
  injection hres2 with htot
  have hxlen : o.xs.length = M.n := hfeas.1
  have hbaseSum : wsum b2q M.baseCoeffs o.xs
      = ((selectedOf M.n o.xs).map (fun i => inp.values.getD i 0)).sum := by
    rw [hbase, ← hxlen]
    exact wsum_eq_sum_selected b2q rfl rfl inp.values o.xs (by rw [hxlen, hn])
  have hextraSum : wsum b2q M.extraCoeffs o.zs
      = ((inp.boosts.filter (boostSelected (selectedOf M.n o.xs))).map
          (fun t => inp.values.getD t.1.toNat 0 * (t.2.2 - 1))).sum := by
    rw [hextra]
    have hn' : M.n = inp.values.length := hn
    rw [hn']
    exact extra_wsum inp.values inp.values.length o.xs inp.boosts M.links o.zs
      hlinks hfeas.2.1 (feasible_z_eq M o.xs o.zs hfeas) hidx
  rw [← hsel, ← htot]
  unfold recomputeTotal evalObj
  rw [hbaseSum, hextraSum]

/-- Shared concrete fixture: a two-item input with one boost. -/
def exInp : KInput := ⟨[1, 2], [1, 1], [3, 4], [(0, 1, 2)], 3, 2⟩

/-- The model `buildModel` constructs for `exInp`. -/
def exM : CpKModel :=
  { n := 2, links := [(0, 1)], wCoeffs := [1, 2], vCoeffs := [1, 1],
    maxW := 3, maxV := 2, baseCoeffs := [3, 4], extraCoeffs := [3 * (2 - 1)] }

/-- A solver outcome for `exInp` selecting both items. -/
def exOut : CpOutcome := ⟨CpStatus.FEASIBLE, [true, true], [true]⟩

theorem c1_total_value_recomputed_witness :
    buildModel exInp = some exM ∧
    SolverSound exM exOut ∧
    (exOut.status = CpStatus.OPTIMAL ∨ exOut.status = CpStatus.FEASIBLE) ∧
    extractResult exM exOut = (some [0, 1], some 10) ∧
    (∀ t ∈ exInp.boosts, 0 ≤ t.1 ∧ 0 ≤ t.2.1) ∧
    (10 : ℚ) = recomputeTotal exInp [0, 1] := by
  have hM : buildModel exInp = some exM := rfl
  have hsound : SolverSound exM exOut := fun _ => by decide
  have hst : exOut.status = CpStatus.OPTIMAL ∨ exOut.status = CpStatus.FEASIBLE :=
    Or.inr rfl
  have hres : extractResult exM exOut = (some [0, 1], some 10) := by
    unfold extractResult
    rw [if_pos hst]
    have h1 : selectedOf exM.n exOut.xs = [0, 1] := by decide
    have h2 : evalObj exM exOut.xs exOut.zs = 10 := by
      show wsum b2q exM.baseCoeffs [true, true] + wsum b2q exM.extraCoeffs [true] = 10
      unfold exM
      rw [wsum_cons, wsum_cons, wsum_cons]
      norm_num [b2q, wsum]
    rw [h1, h2]
  have hidx : ∀ t ∈ exInp.boosts, 0 ≤ t.1 ∧ 0 ≤ t.2.1 := by
    intro t ht
    simp only [exInp, List.mem_cons] at ht
    rcases ht with ht | ht
    · subst ht
      exact ⟨by norm_num, by norm_num⟩
    · exact absurd ht (by simp)
  exact ⟨hM, hsound, hst, hres, hidx,
    c1_total_value_recomputed exInp exM exOut [0, 1] 10 hM hsound hst hres hidx⟩

/-- C2: for every boost triplet with endpoints `(a, b)`, in every boolean
assignment satisfying the three linking constraints `z ≤ x_a`, `z ≤ x_b`,
`z ≥ x_a + x_b - 1` (as in any feasible assignment of the built model),
the conjunction variable is 1 exactly when both endpoint variables are 1,
and 0 otherwise. -/
theorem c2_conjunction_variable_semantics (M : CpKModel) (xs zs : List Bool)
    (h : Feasible M xs zs) :
    ∀ p ∈ M.links.zip zs,
      (p.2 = true ↔ xs.getD p.1.1 false = true ∧ xs.getD p.1.2 false = true) ∧
      (p.2 = false ↔ ¬(xs.getD p.1.1 false = true ∧ xs.getD p.1.2 false = true)) := by
  intro p hp
  have hand := (linkConstraints_iff_and _ _ _).mp (h.2.2.1 p hp)
  rw [hand]
  cases xs.getD p.1.1 false <;> cases xs.getD p.1.2 false <;> simp

theorem c2_conjunction_variable_semantics_witness :
    Feasible exM [true, true] [true] ∧
    ∀ p ∈ exM.links.zip [true],
      (p.2 = true ↔ [true, true].getD p.1.1 false = true ∧ [true, true].getD p.1.2 false = true) ∧
      (p.2 = false ↔ ¬([true, true].getD p.1.1 false = true ∧ [true, true].getD p.1.2 false = true)) :=
  ⟨by decide, c2_conjunction_variable_semantics exM [true, true] [true] (by decide)⟩

/-- Any extracted selection satisfies both capacity sums; shared between
the capacity and zero-capacity claims. -/
theorem selected_sums_le (inp : KInput) (M : CpKModel) (o : CpOutcome)
    (sel : List Nat) (total : ℚ)
    (hM : buildModel inp = some M)
    (hsound : SolverSound M o)
    (hst : o.status = CpStatus.OPTIMAL ∨ o.status = CpStatus.FEASIBLE)
    (hres : extractResult M o = (some sel, some total)) :
    (sel.map (fun i => inp.weights.getD i 0)).sum ≤ inp.max_weight ∧
    (sel.map (fun i => inp.volumes.getD i 0)).sum ≤ inp.max_volume := by
  obtain ⟨hn, hlinks, hw, hwlen, hv, hvlen, hmw, hmv, hbase, hextra⟩ := buildModel_inv inp M hM
  have hfeas := hsound hst
  unfold extractResult at hres
  rw [if_pos hst] at hres
  injection hres with hres1 hres2
  injection hres1 with hsel
  have hxlen : o.xs.length = M.n := hfeas.1
  have key : ∀ (cs : List Int), cs.length = inp.values.length → (∀ c ∈ cs, True) →
      ∀ (lim : Int), wsum b2i cs o.xs ≤ lim →
      ((selectedOf M.n o.xs).map (fun i => cs.getD i 0)).sum ≤ lim := by
    intro cs hcslen _ lim hlim
    have := wsum_eq_sum_selected b2i rfl rfl cs o.xs (by rw [hxlen, hn, hcslen])
    rw [this] at hlim
    rw [hxlen] at hlim
    exact hlim
  constructor
  · have h1 := key (inp.weights.take inp.values.length)
      (by rw [List.length_take]; omega) (fun _ _ => trivial) inp.max_weight
      (by rw [← hw, ← hmw]; exact hfeas.2.2.2.1)
    rw [← hsel]
    calc ((selectedOf M.n o.xs).map (fun i => inp.weights.getD i 0)).sum
        = ((selectedOf M.n o.xs).map (fun i => (inp.weights.take inp.values.length).getD i 0)).sum := by
          apply congrArg
          apply List.map_congr_left
          intro i hi
          rw [getD_take]
          rw [← hn]
          exact ((mem_selectedOf M.n o.xs i).mp hi).1
      _ ≤ inp.max_weight := h1
  · have h1 := key (inp.volumes.take inp.values.length)
      (by rw [List.length_take]; omega) (fun _ _ => trivial) inp.max_volume
      (by rw [← hv, ← hmv]; exact hfeas.2.2.2.2)
    rw [← hsel]
    calc ((selectedOf M.n o.xs).map (fun i => inp.volumes.getD i 0)).sum
        = ((selectedOf M.n o.xs).map (fun i => (inp.volumes.take inp.values.length).getD i 0)).sum := by
          apply congrArg
          apply List.map_congr_left
          intro i hi
          rw [getD_take]
          rw [← hn]
          exact ((mem_selectedOf M.n o.xs i).mp hi).1
      _ ≤ inp.max_volume := h1

/-- C3: for every input with non-negative weights and volumes, every
non-absent `selected_indices` returned by `knapsack_with_boosts` satisfies
both capacity constraints: the selected weights sum to at most
`max_weight` and the selected volumes to at most `max_volume`. -/
theorem c3_capacity_constraints_hold (inp : KInput) (M : CpKModel) (o : CpOutcome)
    (sel : List Nat) (total : ℚ)
    (hM : buildModel inp = some M)
    (hsound : SolverSound M o)
    (hst : o.status = CpStatus.OPTIMAL ∨ o.status = CpStatus.FEASIBLE)
    (hres : extractResult M o = (some sel, some total))
    (hwpos : ∀ w ∈ inp.weights, 0 ≤ w)
    (hvpos : ∀ v ∈ inp.volumes, 0 ≤ v) :
    (sel.map (fun i => inp.weights.getD i 0)).sum ≤ inp.max_weight ∧
    (sel.map (fun i => inp.volumes.getD i 0)).sum ≤ inp.max_volume :=
  selected_sums_le inp M o sel total hM hsound hst hres

theorem c3_capacity_constraints_hold_witness :
    buildModel exInp = some exM ∧
    SolverSound exM exOut ∧
    (exOut.status = CpStatus.OPTIMAL ∨ exOut.status = CpStatus.FEASIBLE) ∧
    extractResult exM exOut = (some [0, 1], some 10) ∧
    (∀ w ∈ exInp.weights, 0 ≤ w) ∧ (∀ v ∈ exInp.volumes, 0 ≤ v) ∧
    ([0, 1].map (fun i => exInp.weights.getD i 0)).sum ≤ exInp.max_weight ∧
    ([0, 1].map (fun i => exInp.volumes.getD i 0)).sum ≤ exInp.max_volume := by
  have hM : buildModel exInp = some exM := rfl
  have hsound : SolverSound exM exOut := fun _ => by decide
  have hst : exOut.status = CpStatus.OPTIMAL ∨ exOut.status = CpStatus.FEASIBLE :=
    Or.inr rfl
  have hres : extractResult exM exOut = (some [0, 1], some 10) := by
    unfold extractResult
    rw [if_pos hst]
    have h1 : selectedOf exM.n exOut.xs = [0, 1] := by decide
    have h2 : evalObj exM exOut.xs exOut.zs = 10 := by
      show wsum b2q exM.baseCoeffs [true, true] + wsum b2q exM.extraCoeffs [true] = 10
      unfold exM
      rw [wsum_cons, wsum_cons, wsum_cons]
      norm_num [b2q, wsum]
    rw [h1, h2]
  have hwpos : ∀ w ∈ exInp.weights, 0 ≤ w := by decide
  have hvpos : ∀ v ∈ exInp.volumes, 0 ≤ v := by decide
  exact ⟨hM, hsound, hst, hres, hwpos, hvpos,
    c3_capacity_constraints_hold exInp exM exOut [0, 1] 10 hM hsound hst hres hwpos hvpos⟩

/-- C5: whenever the solver status is neither OPTIMAL nor FEASIBLE
(infeasible, or timeout/unknown without a solution), `knapsack_with_boosts`
returns the explicit no-solution result `(None, None)` rather than
crashing or presenting an empty selection as a success. -/
theorem c5_no_solution_result (inp : KInput) (M : CpKModel) (o : CpOutcome)
    (hM : buildModel inp = some M)
    (h1 : o.status ≠ CpStatus.OPTIMAL)
    (h2 : o.status ≠ CpStatus.FEASIBLE) :
    knapsack_with_boosts inp o = some (none, none) := by
  unfold knapsack_with_boosts
  rw [hM]
  unfold extractResult
  rw [Option.map_some']
  rw [if_neg (by simp [h1, h2])]

theorem c5_no_solution_result_witness :
    buildModel exInp = some exM ∧
    CpStatus.INFEASIBLE ≠ CpStatus.OPTIMAL ∧
    CpStatus.INFEASIBLE ≠ CpStatus.FEASIBLE ∧
    knapsack_with_boosts exInp ⟨CpStatus.INFEASIBLE, [], []⟩ = some (none, none) :=
  ⟨rfl, by decide, by decide,
    c5_no_solution_result exInp exM ⟨CpStatus.INFEASIBLE, [], []⟩ rfl (by decide) (by decide)⟩

/-- C8: whenever the solver status is FEASIBLE or OPTIMAL, the returned
`selected_indices` is exactly the set of indices below `n` whose item
variable is assigned 1, listed in strictly ascending order with no
duplicates. -/
theorem c8_selected_indices_exact (M : CpKModel) (o : CpOutcome)
    (sel : List Nat) (total : ℚ)
    (hst : o.status = CpStatus.OPTIMAL ∨ o.status = CpStatus.FEASIBLE)
    (hres : extractResult M o = (some sel, some total)) :
    (∀ i, i ∈ sel ↔ i < M.n ∧ o.xs.getD i false = true) ∧
    List.Pairwise (· < ·) sel ∧ sel.Nodup := by
  unfold extractResult at hres
  rw [if_pos hst] at hres
  injection hres with hres1 hres2
  injection hres1 with hsel
  subst hsel
  refine ⟨fun i => mem_selectedOf M.n o.xs i, ?_, ?_⟩
  · exact List.Pairwise.filter _ (List.pairwise_lt_range M.n)
  · exact List.Pairwise.imp Nat.ne_of_lt (List.Pairwise.filter _ (List.pairwise_lt_range M.n))

theorem c8_selected_indices_exact_witness :
    (exOut.status = CpStatus.OPTIMAL ∨ exOut.status = CpStatus.FEASIBLE) ∧
    extractResult exM exOut = (some [0, 1], some 10) ∧
    (∀ i, i ∈ [0, 1] ↔ i < exM.n ∧ exOut.xs.getD i false = true) ∧
    List.Pairwise (· < ·) [0, 1] ∧ ([0, 1] : List Nat).Nodup := by
  have hst : exOut.status = CpStatus.OPTIMAL ∨ exOut.status = CpStatus.FEASIBLE :=
    Or.inr rfl
  have hres : extractResult exM exOut = (some [0, 1], some 10) := by
    unfold extractResult
    rw [if_pos hst]
    have h1 : selectedOf exM.n exOut.xs = [0, 1] := by decide
    have h2 : evalObj exM exOut.xs exOut.zs = 10 := by
      show wsum b2q exM.baseCoeffs [true, true] + wsum b2q exM.extraCoeffs [true] = 10
      unfold exM
      rw [wsum_cons, wsum_cons, wsum_cons]
      norm_num [b2q, wsum]
    rw [h1, h2]
  exact ⟨hst, hres, c8_selected_indices_exact exM exOut [0, 1] 10 hst hres⟩

/-! ### C6: empty boosts reduce to the standard 0/1 knapsack -/

/-- The standard 0/1 knapsack model, written from the spec's words: the
item variables, the two capacity constraints, an objective of
`Σ value_i * x_i`, and no conjunction variables, links, or extra terms. -/
def standardKnapsackModel (weights volumes : List Int) (values : List ℚ)
    (maxW maxV : Int) : CpKModel :=
  { n := values.length, links := [], wCoeffs := weights, vCoeffs := volumes,
    maxW := maxW, maxV := maxV, baseCoeffs := values, extraCoeffs := [] }

/-- C6: for every input with an empty boosts list (and matching lengths),
the built model is exactly the standard 0/1 knapsack with the two capacity
constraints and objective `Σ value_i * x_i`, and every returned
`total_value` equals the sum of `value_i` over the selected set with no
boost terms. -/
theorem c6_empty_boosts_standard_knapsack (inp : KInput)
    (hb : inp.boosts = [])
    (hwlen : inp.weights.length = inp.values.length)
    (hvlen : inp.volumes.length = inp.values.length) :
    buildModel inp = some (standardKnapsackModel inp.weights inp.volumes inp.values
      inp.max_weight inp.max_volume) ∧
    ∀ (o : CpOutcome) (sel : List Nat) (total : ℚ),
      SolverSound (standardKnapsackModel inp.weights inp.volumes inp.values
        inp.max_weight inp.max_volume) o →
      (o.status = CpStatus.OPTIMAL ∨ o.status = CpStatus.FEASIBLE) →
      extractResult (standardKnapsackModel inp.weights inp.volumes inp.values
        inp.max_weight inp.max_volume) o = (some sel, some total) →
      total = (sel.map (fun i => inp.values.getD i 0)).sum := by
  constructor
  · unfold buildModel
    rw [hb]
    simp only [resolveLinks]
    unfold takeExact
    rw [if_pos (le_of_eq hwlen.symm), if_pos (le_of_eq hvlen.symm)]
    unfold standardKnapsackModel
    rw [List.take_of_length_le (le_of_eq hwlen), List.take_of_length_le (le_of_eq hvlen)]
    simp
  · intro o sel total hsound hst hres
    have hfeas := hsound hst
    unfold extractResult at hres
    rw [if_pos hst] at hres
    injection hres with hres1 hres2
    injection hres1 with hsel
    injection hres2 with htot
    have hxlen : o.xs.length = inp.values.length := hfeas.1
    rw [← htot, ← hsel]
    show wsum b2q inp.values o.xs + wsum b2q [] o.zs
        = ((selectedOf (standardKnapsackModel inp.weights inp.volumes inp.values
            inp.max_weight inp.max_volume).n o.xs).map (fun i => inp.values.getD i 0)).sum
    rw [wsum_nil, add_zero]
    show wsum b2q inp.values o.xs
        = ((selectedOf inp.values.length o.xs).map (fun i => inp.values.getD i 0)).sum
    rw [← hxlen]
    exact wsum_eq_sum_selected b2q rfl rfl inp.values o.xs hxlen.symm

theorem c6_empty_boosts_standard_knapsack_witness :
    ((⟨[1], [1], [5], [], 1, 1⟩ : KInput).boosts = []) ∧
    ((⟨[1], [1], [5], [], 1, 1⟩ : KInput).weights.length
      = (⟨[1], [1], [5], [], 1, 1⟩ : KInput).values.length) ∧
    ((⟨[1], [1], [5], [], 1, 1⟩ : KInput).volumes.length
      = (⟨[1], [1], [5], [], 1, 1⟩ : KInput).values.length) ∧
    (buildModel ⟨[1], [1], [5], [], 1, 1⟩
        = some (standardKnapsackModel [1] [1] [5] 1 1) ∧
      ∀ (o : CpOutcome) (sel : List Nat) (total : ℚ),
        SolverSound (standardKnapsackModel [1] [1] [5] 1 1) o →
        (o.status = CpStatus.OPTIMAL ∨ o.status = CpStatus.FEASIBLE) →
        extractResult (standardKnapsackModel [1] [1] [5] 1 1) o = (some sel, some total) →
        total = (sel.map (fun i => ([5] : List ℚ).getD i 0)).sum) :=
  ⟨rfl, rfl, rfl, c6_empty_boosts_standard_knapsack ⟨[1], [1], [5], [], 1, 1⟩ rfl rfl rfl⟩

/-! ### C4: input validation -/

/-- An input with a negative weight (and negative capacity-compatible
data), used to show that invalid inputs are not rejected. -/
def negInp : KInput := ⟨[-1], [0], [1], [], 0, 0⟩

/-- The model `knapsack_with_boosts` happily builds for `negInp`. -/
def negM : CpKModel :=
  { n := 1, links := [], wCoeffs := [-1], vCoeffs := [0], maxW := 0, maxV := 0,
    baseCoeffs := [1], extraCoeffs := [] }

/-- C4 counterexample: `negInp` has a negative weight, yet the call is not
rejected: the model is built and a normal result is returned, so the
claimed fail-fast input validation does not exist in the code. -/
theorem c4_counterexample :
    (negInp.weights.getD 0 0 < 0) ∧
    buildModel negInp = some negM ∧
    knapsack_with_boosts negInp ⟨CpStatus.OPTIMAL, [true], []⟩
      = some (some [0], some (1 * 1 + 0)) := by
  refine ⟨by decide, rfl, ?_⟩
  unfold knapsack_with_boosts
  have hM : buildModel negInp = some negM := rfl
  rw [hM, Option.map_some']
  unfold extractResult
  rw [if_pos (Or.inl rfl)]
  have h1 : selectedOf negM.n [true] = [0] := by decide
  have h2 : evalObj negM [true] [] = 1 * 1 + 0 := by
    show wsum b2q negM.baseCoeffs [true] + wsum b2q negM.extraCoeffs [] = 1 * 1 + 0
    unfold negM
    rw [wsum_cons]
    norm_num [b2q, wsum]
  rw [h1, h2]

/-- C4 amended: `knapsack_with_boosts` performs no input validation at
all.  Negative weights, volumes, values, or capacities are accepted and
the model is built and solved; the only failure is the `IndexError`
raised while the model is being constructed, which happens exactly when
some boost endpoint lies outside the Python-indexable range `[-n, n)` or
the weights or volumes list is shorter than the values list (an endpoint
in `[-n, 0)` is silently aliased to `n + index`, not rejected). -/
theorem c4_no_input_validation (inp : KInput) :
    buildModel inp = none ↔
      (∃ t ∈ inp.boosts,
        (t.1 < -(inp.values.length : Int) ∨ (inp.values.length : Int) ≤ t.1) ∨
        (t.2.1 < -(inp.values.length : Int) ∨ (inp.values.length : Int) ≤ t.2.1)) ∨
      inp.weights.length < inp.values.length ∨
      inp.volumes.length < inp.values.length := by
  rw [buildModel_eq_none_iff]
  simp only [resolveIdx_none_iff]

/-! ### C7: zero capacities -/

theorem getD_nonneg (l : List Int) (h : ∀ x ∈ l, 0 ≤ x) (i : Nat) : 0 ≤ l.getD i 0 := by
  rw [List.getD_eq_getElem?_getD]
  cases hx : l[i]? with
  | none => simp
  | some a =>
    simp only [Option.getD_some]
    exact h a (List.getElem?_mem hx)

theorem all_zero_of_sum_nonpos (l : List Int) (h : ∀ x ∈ l, 0 ≤ x) (hs : l.sum ≤ 0) :
    ∀ x ∈ l, x = 0 := by
  induction l with
  | nil => intro x hx; exact absurd hx (by simp)
  | cons a l ih =>
    have ha : 0 ≤ a := h a (List.mem_cons_self _ _)
    have hl : ∀ x ∈ l, 0 ≤ x := fun x hx => h x (List.mem_cons_of_mem _ hx)
    have hlsum : 0 ≤ l.sum := List.sum_nonneg hl
    rw [List.sum_cons] at hs
    intro x hx
    rcases List.mem_cons.mp hx with hx | hx
    · subst hx; omega
    · exact ih hl (by omega) x hx

/-- The input refuting C7: `max_weight = 0` but `max_volume = 1`, one item
of weight 0, volume 1 and value 5. -/
def c7Inp : KInput := ⟨[0], [1], [5], [], 0, 1⟩

/-- The model built for `c7Inp`. -/
def c7M : CpKModel :=
  { n := 1, links := [], wCoeffs := [0], vCoeffs := [1], maxW := 0, maxV := 1,
    baseCoeffs := [5], extraCoeffs := [] }

/-- The (provably optimal) solver outcome for `c7Inp`: select the item. -/
def c7Out : CpOutcome := ⟨CpStatus.OPTIMAL, [true], []⟩

/-- C7 counterexample: on `c7Inp` (non-negative weights and volumes,
`max_weight = 0`) the optimal outcome selects item 0, whose volume is not
zero, and reports total 5, not 0.  The claim's exception only admits items
with zero weight AND zero volume, so the claim fails whenever just one
capacity is zero. -/
theorem c7_counterexample :
    buildModel c7Inp = some c7M ∧
    SolverSound c7M c7Out ∧
    SolverOptimal c7M c7Out ∧
    c7Inp.max_weight = 0 ∧
    (∀ w ∈ c7Inp.weights, 0 ≤ w) ∧
    (∀ v ∈ c7Inp.volumes, 0 ≤ v) ∧
    extractResult c7M c7Out = (some [0], some 5) ∧
    ([0] : List Nat) ≠ [] ∧
    (5 : ℚ) ≠ 0 ∧
    c7Inp.volumes.getD 0 0 ≠ 0 := by
  have he1 : ∀ (x : Bool) (zs : List Bool), evalObj c7M [x] zs = 5 * b2q x := by
    intro x zs
    show wsum b2q [5] [x] + wsum b2q [] zs = 5 * b2q x
    simp only [wsum_cons, wsum_nil, add_zero]
  have hopt : SolverOptimal c7M c7Out := by
    intro _
    refine ⟨by decide, ?_⟩
    intro xs zs hf
    have hx1 : xs.length = 1 := hf.1
    cases xs with
    | nil => simp at hx1
    | cons x t =>
      cases t with
      | cons y t2 => simp at hx1
      | nil =>
        show evalObj c7M [x] zs ≤ evalObj c7M [true] []
        rw [he1, he1]
        cases x <;> norm_num [b2q]
  have hst : c7Out.status = CpStatus.OPTIMAL ∨ c7Out.status = CpStatus.FEASIBLE :=
    Or.inl rfl
  have hres : extractResult c7M c7Out = (some [0], some 5) := by
    unfold extractResult
    rw [if_pos hst]
    have h1 : selectedOf c7M.n c7Out.xs = [0] := by decide
    have h2 : evalObj c7M c7Out.xs c7Out.zs = 5 := by
      show evalObj c7M [true] [] = 5
      rw [he1]
      norm_num [b2q]
    rw [h1, h2]
  exact ⟨rfl, fun _ => by decide, hopt, rfl, by decide, by decide, hres,
    by simp, by norm_num, by decide⟩

/-- C7 amended: for every input with non-negative weights and volumes,
every item in a returned selection has zero weight whenever
`max_weight = 0`, and zero volume whenever `max_volume = 0` (so with both
capacities zero only zero-weight zero-volume items can appear, but with
one capacity zero the other resource, and hence `total_value`, is
unconstrained). -/
theorem c7_zero_capacity_zero_resource (inp : KInput) (M : CpKModel) (o : CpOutcome)
    (sel : List Nat) (total : ℚ)
    (hM : buildModel inp = some M)
    (hsound : SolverSound M o)
    (hst : o.status = CpStatus.OPTIMAL ∨ o.status = CpStatus.FEASIBLE)
    (hres : extractResult M o = (some sel, some total))
    (hwpos : ∀ w ∈ inp.weights, 0 ≤ w)
    (hvpos : ∀ v ∈ inp.volumes, 0 ≤ v) :
    (inp.max_weight = 0 → ∀ i ∈ sel, inp.weights.getD i 0 = 0) ∧
    (inp.max_volume = 0 → ∀ i ∈ sel, inp.volumes.getD i 0 = 0) := by
  obtain ⟨hws, hvs⟩ := selected_sums_le inp M o sel total hM hsound hst hres
  constructor
  · intro h0 i hi
    have hmap : ∀ x ∈ sel.map (fun i => inp.weights.getD i 0), 0 ≤ x := by
      intro x hx
      obtain ⟨j, _, rfl⟩ := List.mem_map.mp hx
      exact getD_nonneg _ hwpos j
    rw [h0] at hws
    exact all_zero_of_sum_nonpos _ hmap hws _ (List.mem_map_of_mem _ hi)
  · intro h0 i hi
    have hmap : ∀ x ∈ sel.map (fun i => inp.volumes.getD i 0), 0 ≤ x := by
      intro x hx
      obtain ⟨j, _, rfl⟩ := List.mem_map.mp hx
      exact getD_nonneg _ hvpos j
    rw [h0] at hvs
    exact all_zero_of_sum_nonpos _ hmap hvs _ (List.mem_map_of_mem _ hi)

/-- A zero-capacity fixture for the amended C7: one weightless,
volumeless item. -/
def zcInp : KInput := ⟨[0], [0], [5], [], 0, 0⟩

/-- The model built for `zcInp`. -/
def zcM : CpKModel :=
  { n := 1, links := [], wCoeffs := [0], vCoeffs := [0], maxW := 0, maxV := 0,
    baseCoeffs := [5], extraCoeffs := [] }

/-- A solver outcome for `zcInp` selecting the free item. -/
def zcOut : CpOutcome := ⟨CpStatus.FEASIBLE, [true], []⟩

theorem c7_zero_capacity_zero_resource_witness :
    buildModel zcInp = some zcM ∧
    SolverSound zcM zcOut ∧
    (zcOut.status = CpStatus.OPTIMAL ∨ zcOut.status = CpStatus.FEASIBLE) ∧
    extractResult zcM zcOut = (some [0], some 5) ∧
    (∀ w ∈ zcInp.weights, 0 ≤ w) ∧ (∀ v ∈ zcInp.volumes, 0 ≤ v) ∧
    ((zcInp.max_weight = 0 → ∀ i ∈ [0], zcInp.weights.getD i 0 = 0) ∧
     (zcInp.max_volume = 0 → ∀ i ∈ [0], zcInp.volumes.getD i 0 = 0)) := by
  have hsound : SolverSound zcM zcOut := fun _ => by decide
  have hst : zcOut.status = CpStatus.OPTIMAL ∨ zcOut.status = CpStatus.FEASIBLE :=
    Or.inr rfl
  have hres : extractResult zcM zcOut = (some [0], some 5) := by
    unfold extractResult
    rw [if_pos hst]
    have h1 : selectedOf zcM.n zcOut.xs = [0] := by decide
    have h2 : evalObj zcM zcOut.xs zcOut.zs = 5 := by
      show wsum b2q [5] [true] + wsum b2q [] [] = 5
      simp only [wsum_cons, wsum_nil, add_zero]
      norm_num [b2q]
    rw [h1, h2]
  have hwpos : ∀ w ∈ zcInp.weights, 0 ≤ w := by decide
  have hvpos : ∀ v ∈ zcInp.volumes, 0 ≤ v := by decide
  exact ⟨rfl, hsound, hst, hres, hwpos, hvpos,
    c7_zero_capacity_zero_resource zcInp zcM zcOut [0] 5 rfl hsound hst hres hwpos hvpos⟩

/-! ### C10: sign of the reported total -/

/-- The input refuting C10: everything non-negative (two boosts with
factor 0, a valid non-negative penalty factor), yet a feasible,
non-optimal assignment has a negative objective. -/
def c10Inp : KInput := ⟨[0], [0], [10], [(0, 0, 0), (0, 0, 0)], 0, 0⟩

/-- The model built for `c10Inp`. -/
def c10M : CpKModel :=
  { n := 1, links := [(0, 0), (0, 0)], wCoeffs := [0], vCoeffs := [0],
    maxW := 0, maxV := 0, baseCoeffs := [10],
    extraCoeffs := [10 * (0 - 1), 10 * (0 - 1)] }

/-- A FEASIBLE (timeout-style) outcome for `c10Inp` selecting the item. -/
def c10Out : CpOutcome := ⟨CpStatus.FEASIBLE, [true], [true, true]⟩

/-- C10 counterexample: all weights, volumes, values and capacities of
`c10Inp` are non-negative, the solver outcome is FEASIBLE and satisfies
every constraint, yet the returned `total_value` is `-10 < 0`: a feasible
but non-optimal solution is returned as-is by the code, so non-negativity
is not guaranteed for every non-absent result. -/
theorem c10_counterexample :
    buildModel c10Inp = some c10M ∧
    SolverSound c10M c10Out ∧
    (∀ w ∈ c10Inp.weights, 0 ≤ w) ∧
    (∀ v ∈ c10Inp.volumes, 0 ≤ v) ∧
    (∀ q ∈ c10Inp.values, 0 ≤ q) ∧
    (∀ t ∈ c10Inp.boosts, 0 ≤ t.2.2) ∧
    0 ≤ c10Inp.max_weight ∧ 0 ≤ c10Inp.max_volume ∧
    extractResult c10M c10Out = (some [0], some (-10)) ∧
    (-10 : ℚ) < 0 := by
  have hst : c10Out.status = CpStatus.OPTIMAL ∨ c10Out.status = CpStatus.FEASIBLE :=
    Or.inr rfl
  have hres : extractResult c10M c10Out = (some [0], some (-10)) := by
    unfold extractResult
    rw [if_pos hst]
    have h1 : selectedOf c10M.n c10Out.xs = [0] := by decide
    have h2 : evalObj c10M c10Out.xs c10Out.zs = -10 := by
      show wsum b2q [10] [true]
          + wsum b2q [10 * (0 - 1), 10 * (0 - 1)] [true, true] = -10
      simp only [wsum_cons, wsum_nil, add_zero]
      norm_num [b2q]
    rw [h1, h2]
  refine ⟨rfl, fun _ => by decide, by decide, by decide, ?_, ?_, by decide, by decide,
    hres, by norm_num⟩
  · intro q hq
    simp only [c10Inp, List.mem_cons] at hq
    rcases hq with hq | hq
    · subst hq; norm_num
    · exact absurd hq (by simp)
  · intro t ht
    simp only [c10Inp, List.mem_cons] at ht
    rcases ht with ht | ht
    · subst ht; norm_num
    · rcases ht with ht | ht
      · subst ht; norm_num
      · exact absurd ht (by simp)

/-- C10 amended: for every input with non-negative capacities (in
particular for every input with non-negative weights, volumes, values and
capacities), whenever the solver outcome is OPTIMAL, the returned
`total_value` is at least 0, because the empty selection satisfies every
constraint with objective 0 and the objective is maximized. -/
theorem c10_optimal_total_nonneg (inp : KInput) (M : CpKModel) (o : CpOutcome)
    (sel : List Nat) (total : ℚ)
    (hM : buildModel inp = some M)
    (hopt : SolverOptimal M o)
    (hst : o.status = CpStatus.OPTIMAL)
    (hres : extractResult M o = (some sel, some total))
    (hmw : 0 ≤ inp.max_weight)
    (hmv : 0 ≤ inp.max_volume) :
    0 ≤ total := by
  obtain ⟨hn, hlinks, hw, hwlen, hv, hvlen, hmwEq, hmvEq, hbase, hextra⟩ := buildModel_inv inp M hM
  obtain ⟨hfeas, hmax⟩ := hopt hst
  have hgetD : ∀ (m : Nat) (i : Nat), (List.replicate m false).getD i false = false := by
    intro m i
    rw [List.getD_eq_getElem?_getD, List.getElem?_replicate]
    split <;> rfl
  have hfeas0 : Feasible M (List.replicate M.n false) (List.replicate M.links.length false) := by
    refine ⟨List.length_replicate _ _, List.length_replicate _ _, ?_, ?_, ?_⟩
    · intro p hp
      obtain ⟨pl, pz⟩ := p
      have hz : pz = false := List.eq_of_mem_replicate (List.of_mem_zip hp).2
      subst hz
      show linkConstraints ((List.replicate M.n false).getD pl.1 false)
        ((List.replicate M.n false).getD pl.2 false) false
      rw [hgetD, hgetD]
      decide
    · rw [wsum_false b2i rfl]
      rw [hmwEq]
      exact hmw
    · rw [wsum_false b2i rfl]
      rw [hmvEq]
      exact hmv
  have h0 : evalObj M (List.replicate M.n false) (List.replicate M.links.length false) = 0 := by
    unfold evalObj
    rw [wsum_false b2q rfl, wsum_false b2q rfl]
    norm_num
  have hle := hmax _ _ hfeas0
  rw [h0] at hle
  unfold extractResult at hres
  rw [if_pos (Or.inl hst)] at hres
  injection hres with hres1 hres2
  injection hres2 with htot
  rw [← htot]
  exact hle

/-- The empty fixture: no items, no boosts, zero capacities. -/
def zInp : KInput := ⟨[], [], [], [], 0, 0⟩

/-- The model built for `zInp`. -/
def zM : CpKModel :=
  { n := 0, links := [], wCoeffs := [], vCoeffs := [], maxW := 0, maxV := 0,
    baseCoeffs := [], extraCoeffs := [] }

/-- The optimal outcome for `zInp`: the empty assignment. -/
def zOut : CpOutcome := ⟨CpStatus.OPTIMAL, [], []⟩

theorem c10_optimal_total_nonneg_witness :
    buildModel zInp = some zM ∧
    SolverOptimal zM zOut ∧
    zOut.status = CpStatus.OPTIMAL ∧
    extractResult zM zOut = (some [], some 0) ∧
    0 ≤ zInp.max_weight ∧ 0 ≤ zInp.max_volume ∧
    (0 : ℚ) ≤ 0 := by
  have hopt : SolverOptimal zM zOut := by
    intro _
    refine ⟨by decide, ?_⟩
    intro xs zs hf
    have hxs : xs = [] := List.length_eq_zero.mp hf.1
    have hzs : zs = [] := List.length_eq_zero.mp hf.2.1
    subst hxs
    subst hzs
    exact le_refl _
  have hst : zOut.status = CpStatus.OPTIMAL ∨ zOut.status = CpStatus.FEASIBLE :=
    Or.inl rfl
  have hres : extractResult zM zOut = (some [], some 0) := by
    unfold extractResult
    rw [if_pos hst]
    have h1 : selectedOf zM.n zOut.xs = [] := by decide
    have h2 : evalObj zM zOut.xs zOut.zs = 0 := by
      show wsum b2q [] [] + wsum b2q [] [] = 0
      simp only [wsum_nil]
      norm_num
    rw [h1, h2]
  exact ⟨rfl, hopt, rfl, hres, by decide, by decide,
    c10_optimal_total_nonneg zInp zM zOut [] 0 rfl hopt rfl hres (by decide) (by decide)⟩

/-! ### C9: a factor-1 boost is objective-neutral -/

theorem wsum_append {α : Type} [Semiring α] (toVal : Bool → α) (c1 c2 : List α)
    (x1 x2 : List Bool) (h : c1.length = x1.length) :
    wsum toVal (c1 ++ c2) (x1 ++ x2) = wsum toVal c1 x1 + wsum toVal c2 x2 := by
  unfold wsum
  rw [List.zipWith_append _ _ _ _ _ h, List.sum_append]

theorem resolveLinks_append (n : Nat) (l1 l2 : List (Int × Int × ℚ)) :
    resolveLinks n (l1 ++ l2)
      = (resolveLinks n l1).bind (fun r1 => (resolveLinks n l2).map (fun r2 => r1 ++ r2)) := by
  induction l1 with
  | nil =>
    simp only [List.nil_append, resolveLinks, Option.some_bind]
    cases resolveLinks n l2 <;> simp
  | cons t l1 ih =>
    obtain ⟨a, b, f⟩ := t
    simp only [List.cons_append, resolveLinks, List.append_eq]
    rw [ih]
    cases ha : resolveIdx n a <;> cases hb : resolveIdx n b <;>
      cases h1 : resolveLinks n l1 <;> cases h2 : resolveLinks n l2 <;> simp

/-- All boolean assignment vectors of a given length. -/
def allBoolLists : Nat → List (List Bool)
  | 0 => [[]]
  | n + 1 => ((allBoolLists n).map (List.cons false)) ++ ((allBoolLists n).map (List.cons true))

theorem mem_allBoolLists : ∀ (n : Nat) (xs : List Bool), xs ∈ allBoolLists n ↔ xs.length = n := by
  intro n
  induction n with
  | zero =>
    intro xs
    simp only [allBoolLists, List.mem_singleton, List.length_eq_zero]
  | succ n ih =>
    intro xs
    cases xs with
    | nil => simp [allBoolLists]
    | cons x t =>
      simp only [allBoolLists, List.mem_append, List.mem_map, List.length_cons]
      constructor
      · rintro (⟨ys, hys, heq⟩ | ⟨ys, hys, heq⟩) <;> cases heq <;>
          rw [(ih t).mp hys]
      · intro h
        have ht : t.length = n := by omega
        cases x
        · exact Or.inl ⟨t, (ih t).mpr ht, rfl⟩
        · exact Or.inr ⟨t, (ih t).mpr ht, rfl⟩

/-- All assignments of the model's variables that satisfy every
constraint. -/
def feasiblePoints (M : CpKModel) : List (List Bool × List Bool) :=
  ((allBoolLists M.n).flatMap
    (fun xs => (allBoolLists M.links.length).map (fun zs => (xs, zs)))).filter
    (fun p => decide (Feasible M p.1 p.2))

/-- The objective values attained by the feasible assignments. -/
def objValues (M : CpKModel) : List ℚ :=
  (feasiblePoints M).map (fun p => evalObj M p.1 p.2)

/-- The optimal objective value of the model (`⊥` when infeasible). -/
def bestObjective (M : CpKModel) : WithBot ℚ :=
  (objValues M).maximum

theorem mem_objValues (M : CpKModel) (val : ℚ) :
    val ∈ objValues M ↔ ∃ xs zs, Feasible M xs zs ∧ evalObj M xs zs = val := by
  unfold objValues feasiblePoints
  constructor
  · intro h
    obtain ⟨p, hp, rfl⟩ := List.mem_map.mp h
    rw [List.mem_filter] at hp
    exact ⟨p.1, p.2, of_decide_eq_true hp.2, rfl⟩
  · rintro ⟨xs, zs, hf, rfl⟩
    refine List.mem_map.mpr ⟨(xs, zs), ?_, rfl⟩
    rw [List.mem_filter]
    constructor
    · exact List.mem_flatMap.mpr ⟨xs, (mem_allBoolLists _ _).mpr hf.1,
        List.mem_map.mpr ⟨zs, (mem_allBoolLists _ _).mpr hf.2.1, rfl⟩⟩
    · exact decide_eq_true hf

theorem maximum_congr (l1 l2 : List ℚ) (h : ∀ x, x ∈ l1 ↔ x ∈ l2) :
    l1.maximum = l2.maximum := by
  have key : ∀ (a b : List ℚ), (∀ x, x ∈ a ↔ x ∈ b) → a.maximum ≤ b.maximum := by
    intro a b hab
    cases h1 : a.maximum with
    | bot => exact bot_le
    | coe m =>
      have hm : m ∈ a := List.maximum_mem h1
      exact h1 ▸ List.le_maximum_of_mem' ((hab m).mp hm)
  exact le_antisymm (key l1 l2 h) (key l2 l1 (fun x => (h x).symm))

/-- C9: a boost triplet with factor 1.0 has objective coefficient
`value_a * (1 - 1) = 0`, so the objective built is pointwise identical to
the objective built without that triplet, and the optimal objective value
of the model is unchanged by removing it. -/
theorem c9_factor_one_boost_neutral (inp inp2 : KInput)
    (bs1 bs2 : List (Int × Int × ℚ)) (a b : Int) (M Mr : CpKModel)
    (hbo : inp.boosts = bs1 ++ (a, b, 1) :: bs2)
    (hbo2 : inp2.boosts = bs1 ++ bs2)
    (hsameW : inp2.weights = inp.weights)
    (hsameV : inp2.volumes = inp.volumes)
    (hsameVal : inp2.values = inp.values)
    (hsameMW : inp2.max_weight = inp.max_weight)
    (hsameMV : inp2.max_volume = inp.max_volume)
    (hM : buildModel inp = some M)
    (hM2 : buildModel inp2 = some Mr) :
    (∀ (xs zs1 zs2 : List Bool) (zk : Bool), zs1.length = bs1.length →
        evalObj M xs (zs1 ++ zk :: zs2) = evalObj Mr xs (zs1 ++ zs2)) ∧
    bestObjective M = bestObjective Mr := by
  obtain ⟨hn, hlinks, hw, hwlen, hv, hvlen, hmw, hmv, hbase, hextra⟩ := buildModel_inv inp M hM
  obtain ⟨hn2, hlinks2, hw2, hwlen2, hv2, hvlen2, hmw2, hmv2, hbase2, hextra2⟩ :=
    buildModel_inv inp2 Mr hM2
  have hlinksM : resolveLinks inp.values.length (bs1 ++ (a, b, 1) :: bs2) = some M.links := by
    rw [← hbo]
    exact hlinks
  rw [resolveLinks_append] at hlinksM
  cases hr1 : resolveLinks inp.values.length bs1 <;> rw [hr1] at hlinksM
  · exact absurd hlinksM (by simp)
  rename_i r1
  simp only [Option.some_bind, resolveLinks] at hlinksM
  cases hra : resolveIdx inp.values.length a <;> rw [hra] at hlinksM
  · exact absurd hlinksM (by simp)
  rename_i ra
  cases hrb : resolveIdx inp.values.length b <;> rw [hrb] at hlinksM
  · exact absurd hlinksM (by simp)
  rename_i rb
  cases hr2 : resolveLinks inp.values.length bs2 <;> rw [hr2] at hlinksM
  · exact absurd hlinksM (by simp)
  rename_i r2
  simp only [Option.map_some'] at hlinksM
  have hML : M.links = r1 ++ (ra, rb) :: r2 := (Option.some.inj hlinksM).symm
  have hlinksMr : resolveLinks inp.values.length (bs1 ++ bs2) = some Mr.links := by
    rw [← hsameVal, ← hbo2]
    exact hlinks2
  rw [resolveLinks_append, hr1, hr2] at hlinksMr
  simp only [Option.some_bind, Option.map_some'] at hlinksMr
  have hMrL : Mr.links = r1 ++ r2 := (Option.some.inj hlinksMr).symm
  have hlen1 : r1.length = bs1.length := resolveLinks_length _ _ _ hr1
  have hlen2 : r2.length = bs2.length := resolveLinks_length _ _ _ hr2
  have hextraM : M.extraCoeffs
      = ((r1.zip bs1).map (fun p => inp.values.getD p.1.1 0 * (p.2.2.2 - 1)))
        ++ (0 : ℚ) :: ((r2.zip bs2).map (fun p => inp.values.getD p.1.1 0 * (p.2.2.2 - 1))) := by
    rw [hextra, hML, hbo, List.zip_append hlen1, List.map_append]
    congr 1
    rw [List.zip_cons_cons, List.map_cons]
    congr 1
    show inp.values.getD ra 0 * (1 - 1) = 0
    rw [sub_self, mul_zero]
  have hextraMr : Mr.extraCoeffs
      = ((r1.zip bs1).map (fun p => inp.values.getD p.1.1 0 * (p.2.2.2 - 1)))
        ++ ((r2.zip bs2).map (fun p => inp.values.getD p.1.1 0 * (p.2.2.2 - 1))) := by
    rw [hextra2, hMrL, hbo2, hsameVal, List.zip_append hlen1, List.map_append]
  have hE1len : ((r1.zip bs1).map (fun p => inp.values.getD p.1.1 0 * (p.2.2.2 - 1))).length
      = bs1.length := by
    simp [List.length_zip, hlen1]
  have hnEq : Mr.n = M.n := by rw [hn, hn2, hsameVal]
  have hcapW : Mr.wCoeffs = M.wCoeffs := by rw [hw, hw2, hsameW, hsameVal]
  have hcapV : Mr.vCoeffs = M.vCoeffs := by rw [hv, hv2, hsameV, hsameVal]
  have hmaxW : Mr.maxW = M.maxW := by rw [hmw, hmw2, hsameMW]
  have hmaxV : Mr.maxV = M.maxV := by rw [hmv, hmv2, hsameMV]
  have hbaseEq : Mr.baseCoeffs = M.baseCoeffs := by rw [hbase, hbase2, hsameVal]
  have hpoint : ∀ (xs zs1 zs2 : List Bool) (zk : Bool), zs1.length = bs1.length →
      evalObj M xs (zs1 ++ zk :: zs2) = evalObj Mr xs (zs1 ++ zs2) := by
    intro xs zs1 zs2 zk hlen
    unfold evalObj
    rw [hbaseEq]
    congr 1
    rw [hextraM, hextraMr,
      wsum_append b2q _ _ _ _ (hE1len.trans hlen.symm),
      wsum_append b2q _ _ _ _ (hE1len.trans hlen.symm),
      wsum_cons, zero_mul, zero_add]
  refine ⟨hpoint, ?_⟩
  have hfwd : ∀ (xs zs1 zs2 : List Bool) (zk : Bool), zs1.length = bs1.length →
      Feasible M xs (zs1 ++ zk :: zs2) → Feasible Mr xs (zs1 ++ zs2) := by
    intro xs zs1 zs2 zk hlen hf
    obtain ⟨hf1, hf2, hf3, hf4, hf5⟩ := hf
    have hr1z : r1.length = zs1.length := hlen1.trans hlen.symm
    refine ⟨by rw [hnEq]; exact hf1, ?_, ?_, by rw [hcapW, hmaxW]; exact hf4,
      by rw [hcapV, hmaxV]; exact hf5⟩
    · rw [hMrL]
      rw [hML] at hf2
      simp only [List.length_append, List.length_cons] at hf2 ⊢
      omega
    · intro p hp
      apply hf3
      rw [hMrL, List.zip_append hr1z] at hp
      rw [hML, List.zip_append hr1z, List.zip_cons_cons]
      rcases List.mem_append.mp hp with hp | hp
      · exact List.mem_append_left _ hp
      · exact List.mem_append_right _ (List.mem_cons_of_mem _ hp)
  have hbwd : ∀ (xs zs1 zs2 : List Bool), zs1.length = bs1.length →
      Feasible Mr xs (zs1 ++ zs2) →
      Feasible M xs (zs1 ++ (xs.getD ra false && xs.getD rb false) :: zs2) := by
    intro xs zs1 zs2 hlen hf
    obtain ⟨hf1, hf2, hf3, hf4, hf5⟩ := hf
    have hr1z : r1.length = zs1.length := hlen1.trans hlen.symm
    refine ⟨by rw [← hnEq]; exact hf1, ?_, ?_, by rw [← hcapW, ← hmaxW]; exact hf4,
      by rw [← hcapV, ← hmaxV]; exact hf5⟩
    · rw [hML]
      rw [hMrL] at hf2
      simp only [List.length_append, List.length_cons] at hf2 ⊢
      omega
    · intro p hp
      rw [hML, List.zip_append hr1z, List.zip_cons_cons] at hp
      rcases List.mem_append.mp hp with hp | hp
      · exact hf3 p (by rw [hMrL, List.zip_append hr1z]; exact List.mem_append_left _ hp)
      · rcases List.mem_cons.mp hp with hp | hp
        · subst hp
          exact (linkConstraints_iff_and _ _ _).mpr rfl
        · exact hf3 p (by rw [hMrL, List.zip_append hr1z]; exact List.mem_append_right _ hp)
  have hmem : ∀ val, val ∈ objValues M ↔ val ∈ objValues Mr := by
    intro val
    rw [mem_objValues, mem_objValues]
    constructor
    · rintro ⟨xs, zs, hf, rfl⟩
      have hzslen : zs.length = bs1.length + (1 + bs2.length) := by
        have h2 := hf.2.1
        rw [hML] at h2
        simp only [List.length_append, List.length_cons] at h2
        omega
      have hk : bs1.length < zs.length := by omega
      have htklen : (zs.take bs1.length).length = bs1.length := by
        rw [List.length_take]
        omega
      have hdrop : zs.drop bs1.length = zs.getD bs1.length false :: zs.drop (bs1.length + 1) := by
        rw [List.drop_eq_getElem_cons hk]
        congr 1
        rw [List.getD_eq_getElem?_getD, List.getElem?_eq_getElem hk]
        rfl
      have hsplit : zs = zs.take bs1.length
          ++ zs.getD bs1.length false :: zs.drop (bs1.length + 1) := by
        conv_lhs => rw [← List.take_append_drop bs1.length zs]
        rw [hdrop]
      refine ⟨xs, zs.take bs1.length ++ zs.drop (bs1.length + 1), ?_, ?_⟩
      · apply hfwd xs _ _ (zs.getD bs1.length false) htklen
        rw [← hsplit]
        exact hf
      · rw [← hpoint xs _ _ (zs.getD bs1.length false) htklen, ← hsplit]
    · rintro ⟨xs, zs, hf, rfl⟩
      have hzslen : zs.length = bs1.length + bs2.length := by
        have h2 := hf.2.1
        rw [hMrL] at h2
        simp only [List.length_append] at h2
        omega
      have htklen : (zs.take bs1.length).length = bs1.length := by
        rw [List.length_take]
        omega
      have hsplit : zs = zs.take bs1.length ++ zs.drop bs1.length :=
        (List.take_append_drop bs1.length zs).symm
      refine ⟨xs, zs.take bs1.length
        ++ (xs.getD ra false && xs.getD rb false) :: zs.drop bs1.length, ?_, ?_⟩
      · apply hbwd xs _ _ htklen
        rw [← hsplit]
        exact hf
      · rw [hpoint xs _ _ (xs.getD ra false && xs.getD rb false) htklen, ← hsplit]
  unfold bestObjective
  exact maximum_congr _ _ hmem

/-- A one-item input with a single factor-1 boost. -/
def f1Inp : KInput := ⟨[1], [1], [2], [(0, 0, 1)], 1, 1⟩

/-- The same input with the factor-1 boost removed. -/
def f1InpR : KInput := ⟨[1], [1], [2], [], 1, 1⟩

/-- The model built for `f1Inp`. -/
def f1M : CpKModel :=
  { n := 1, links := [(0, 0)], wCoeffs := [1], vCoeffs := [1], maxW := 1, maxV := 1,
    baseCoeffs := [2], extraCoeffs := [2 * (1 - 1)] }

/-- The model built for `f1InpR`. -/
def f1MR : CpKModel :=
  { n := 1, links := [], wCoeffs := [1], vCoeffs := [1], maxW := 1, maxV := 1,
    baseCoeffs := [2], extraCoeffs := [] }

theorem c9_factor_one_boost_neutral_witness :
    f1Inp.boosts = [] ++ (0, 0, 1) :: [] ∧
    f1InpR.boosts = [] ++ [] ∧
    f1InpR.weights = f1Inp.weights ∧
    f1InpR.volumes = f1Inp.volumes ∧
    f1InpR.values = f1Inp.values ∧
    f1InpR.max_weight = f1Inp.max_weight ∧
    f1InpR.max_volume = f1Inp.max_volume ∧
    buildModel f1Inp = some f1M ∧
    buildModel f1InpR = some f1MR ∧
    ((∀ (xs zs1 zs2 : List Bool) (zk : Bool), zs1.length = ([] : List (Int × Int × ℚ)).length →
        evalObj f1M xs (zs1 ++ zk :: zs2) = evalObj f1MR xs (zs1 ++ zs2)) ∧
      bestObjective f1M = bestObjective f1MR) :=
  ⟨rfl, rfl, rfl, rfl, rfl, rfl, rfl, rfl, rfl,
    c9_factor_one_boost_neutral f1Inp f1InpR [] [] 0 0 f1M f1MR
      rfl rfl rfl rfl rfl rfl rfl rfl rfl⟩
